import Mathlib

/-!
Verification development for a Rust inference engine that loads GGUF model
containers, decodes quantized tensor payloads and runs transformer compute
kernels.  The Rust source is shallowly embedded: machine bytes are `Nat`
values (kept below 256 by construction of the inputs), `f32` arithmetic is
idealized over `ℝ`, fallible operations return `Option`/`Except`, and Rust
panics are modelled as explicit error values.
-/

namespace InferenceEngine

/-- The UTF-8 bytes of an ASCII string literal, used to write byte-level names. -/
def strBytes (s : String) : List Nat := s.data.map Char.toNat

/-- Little-endian interpretation of a byte list (first byte least significant),
as produced by `u32::from_le_bytes` / `u64::from_le_bytes`. -/
def bytesToNatLE : List Nat → Nat
  | [] => 0
  | b :: rest => b % 256 + 256 * bytesToNatLE rest

/-- Overwrite `l[start .. start+xs.length)` with `xs`, mirroring
`copy_from_slice` into a subslice (callers guarantee the range is in bounds). -/
def writeSlice (l : List α) (start : Nat) (xs : List α) : List α :=
  l.take start ++ xs ++ l.drop (start + xs.length)

/-! ## Q4_K quantized payload decoding (`tensor_loader.rs`)

`get_quantized_value_q4k(pos, qs)` reads the 4-bit code of element `pos`
(0..255) of a superblock out of its 128-byte `qs` region. -/

/-- Embeds `get_quantized_value_q4k` from `tensor_loader.rs`: group-of-64
layout, `byte_idx = group * 32 + offset_in_group % 32`, low nibble for
`offset_in_group < 32`, high nibble otherwise. -/
def get_quantized_value_q4k (pos : Nat) (qs : List Nat) : Nat :=
  let group := pos / 64
  let offset_in_group := pos % 64
  let byte_idx := group * 32 + offset_in_group % 32
  let nibble := offset_in_group / 32
  let byte := qs.getD byte_idx 0
  if nibble = 0 then byte &&& 0x0F else (byte >>> 4) &&& 0x0F

/-- The element-extraction loop of `load_q4k_tensor` for one superblock:
element `pos` of `0..256` is `get_quantized_value_q4k pos qs`. -/
def unpack_q4k_block (qs : List Nat) : List Nat :=
  (List.range 256).map (fun pos => get_quantized_value_q4k pos qs)

/-- Embeds `extract_scale_min_k4` from `tensor_loader.rs`: 6-bit scale and min
codes for sub-block `j` (0-7) from the packed 12-byte scales region. -/
def extract_scale_min_k4 (j : Nat) (scales : List Nat) : Nat × Nat :=
  if j < 4 then
    (scales.getD j 0 &&& 0x3F, scales.getD (j + 4) 0 &&& 0x3F)
  else
    let low_bits := scales.getD (j + 4) 0
    let scale_low := low_bits &&& 0x0F
    let min_low := (low_bits >>> 4) &&& 0x0F
    let scale_high := (scales.getD (j - 4) 0 >>> 6) &&& 0x03
    let min_high := (scales.getD j 0 >>> 6) &&& 0x03
    (scale_low ||| (scale_high <<< 4), min_low ||| (min_high <<< 4))

/-! ## Attention KV cache (`layers/attention.rs`)

The cache is two flat `f32` buffers plus a write cursor.  `append_kv`
mutates `&mut self` in Rust; the embedding returns the post-call state
together with an optional error, so the error paths visibly return the
state at the point of the early `return`. -/

structure KVCache where
  k_cache : List ℝ
  v_cache : List ℝ
  current_pos : Nat
  max_seq_len : Nat
  num_heads : Nat
  head_dim : Nat

inductive KVCacheError where
  | KVCacheFull (max_len : Nat)
  | KVDimMismatch (k_size : Nat)
  deriving Repr, DecidableEq

/-- Embeds `KVCache::new`: both buffers zero-initialized with
`max_seq_len * num_heads * head_dim` elements, cursor at 0. -/
def KVCache.new (max_seq_len num_heads head_dim : Nat) : KVCache :=
  let total_size := max_seq_len * num_heads * head_dim
  { k_cache := List.replicate total_size 0
    v_cache := List.replicate total_size 0
    current_pos := 0
    max_seq_len := max_seq_len
    num_heads := num_heads
    head_dim := head_dim }

/-- Embeds `KVCache::append_kv`.  The capacity check comes first, then the
length check, then both copies and the cursor increment; an error returns
the untouched state. -/
def KVCache.append_kv (c : KVCache) (k v : List ℝ) :
    KVCache × Option KVCacheError :=
  if c.current_pos ≥ c.max_seq_len then
    (c, some (.KVCacheFull c.max_seq_len))
  else
    let expected_len := c.num_heads * c.head_dim
    if k.length ≠ expected_len ∨ v.length ≠ expected_len then
      (c, some (.KVDimMismatch expected_len))
    else
      let stride := c.num_heads * c.head_dim
      let start_idx := c.current_pos * stride
      ({ c with
          k_cache := writeSlice c.k_cache start_idx k
          v_cache := writeSlice c.v_cache start_idx v
          current_pos := c.current_pos + 1 }, none)

/-- Panics of the slice getters: the two explicit bound checks, and the
out-of-range slice indexing `&cache[start .. start + head_dim]`. -/
inductive SlicePanic where
  | posOut
  | headOut
  | rangePanic
  deriving Repr, DecidableEq

/-- Embeds `KVCache::get_k_slice`: note the non-strict bound
`position > current_pos` (so `position == current_pos` passes), then the
head bound, then the slice whose indexing panics when past the buffer end. -/
def KVCache.get_k_slice (c : KVCache) (position head : Nat) :
    Except SlicePanic (List ℝ) :=
  if position > c.current_pos then .error .posOut
  else if head ≥ c.num_heads then .error .headOut
  else
    let start_pos := position * c.num_heads * c.head_dim + head * c.head_dim
    if start_pos + c.head_dim ≤ c.k_cache.length then
      .ok ((c.k_cache.drop start_pos).take c.head_dim)
    else .error .rangePanic

/-- Embeds `KVCache::get_v_slice` (strict bound `position >= current_pos`). -/
def KVCache.get_v_slice (c : KVCache) (position head : Nat) :
    Except SlicePanic (List ℝ) :=
  if position ≥ c.current_pos then .error .posOut
  else if head ≥ c.num_heads then .error .headOut
  else
    let start_pos := position * c.num_heads * c.head_dim + head * c.head_dim
    if start_pos + c.head_dim ≤ c.v_cache.length then
      .ok ((c.v_cache.drop start_pos).take c.head_dim)
    else .error .rangePanic

/-- Fold `append_kv` over a list of key/value pairs, stopping at the first
error; returns the final cache state and the outcome. -/
def KVCache.appendMany (c : KVCache) :
    List (List ℝ × List ℝ) → KVCache × Option KVCacheError
  | [] => (c, none)
  | (k, v) :: rest =>
    match c.append_kv k v with
    | (c2, none) => c2.appendMany rest
    | (c2, some e) => (c2, some e)

/-- States reachable from `KVCache.new` through `append_kv` calls. -/
inductive KVCache.Reachable : KVCache → Prop
  | new (msl nh hd : Nat) : KVCache.Reachable (KVCache.new msl nh hd)
  | append {c c2 : KVCache} {k v : List ℝ} {oe : Option KVCacheError} :
      KVCache.Reachable c → c.append_kv k v = (c2, oe) → KVCache.Reachable c2

/-! ## Rotary position embedding (`ops/rope.rs`)

`f32` arithmetic is idealized over `ℝ`; `powf` becomes `Real.rpow`.  The
source loops `i` over `0 .. vec.len()/2` and updates `vec[i]`, `vec[i+1]`
in place (sequentially, so later iterations see earlier writes).  The
`rotary_dim > head_dim` panic is the `none` result. -/

/-- One iteration of the `rope` loop body at index `i` with angle `angle`. -/
noncomputable def ropeStep (v : List ℝ) (angle : ℝ) (i : Nat) : List ℝ :=
  let temp_0 := v.getD i 0
  let temp_1 := v.getD (i + 1) 0
  (v.set i (temp_0 * Real.cos angle - temp_1 * Real.sin angle)).set (i + 1)
    (temp_0 * Real.sin angle + temp_1 * Real.cos angle)

/-- The angle computed in the loop:
`(pos as f32) * (base as f32).powf((-2.0 * i) / head_dim)`. -/
noncomputable def ropeAngle (base pos head_dim : Nat) (i : Nat) : ℝ :=
  (pos : ℝ) * (base : ℝ) ^ (((-2 : ℝ) * (i : ℝ)) / (head_dim : ℝ))

/-- Embeds `rope` from `ops/rope.rs`.  Panic on `rotary_dim > head_dim` is
`none`; otherwise the loop runs over `i ∈ [0, vec.len()/2)`. -/
noncomputable def rope (vec : List ℝ) (base pos head_dim rotary_dim : Nat) :
    Option (List ℝ) :=
  if rotary_dim > head_dim then none
  else
    let num_pairs := vec.length / 2
    some ((List.range num_pairs).foldl
      (fun acc i => ropeStep acc (ropeAngle base pos head_dim i) i) vec)

/-! ## Gated activation (`ops/swiglu.rs`) -/

/-- Embeds the per-element body of `sigmoid` from `ops/swiglu.rs`: the
positive branch is `1/(1+exp(-x))`, the non-positive branch is the source's
`x.exp() / (1.0 / x.exp())`. -/
noncomputable def sigmoidElem (x : ℝ) : ℝ :=
  if x > 0 then 1 / (1 + Real.exp (-x))
  else Real.exp x / (1 / Real.exp x)

/-- Embeds `sigmoid` applied to a whole slice. -/
noncomputable def sigmoid (input : List ℝ) : List ℝ := input.map sigmoidElem

/-- Embeds `swiglu`: `output[i] = x[i] * sigmoid(x)[i] * gate[i]` over
equal-length slices. -/
noncomputable def swiglu (x gate : List ℝ) : List ℝ :=
  (List.range x.length).map
    (fun i => x.getD i 0 * (sigmoid x).getD i 0 * gate.getD i 0)

/-! ## Binary reader (`file_loader/io.rs`)

A `Reader` is a byte buffer plus a cursor.  `read_exact` fails on a short
read; `seek` on a plain byte buffer always lands on the requested position,
so the post-seek verification never fires and seeks are modelled as setting
the cursor. -/

structure RState where
  data : List Nat
  pos : Nat

/-- Embeds `Reader::read_bytes`: `size` bytes from the cursor, failing when
fewer remain (`read_exact`), and advancing the cursor. -/
def read_bytes (s : RState) (size : Nat) : Option (List Nat × RState) :=
  if s.pos + size ≤ s.data.length then
    some ((s.data.drop s.pos).take size, ⟨s.data, s.pos + size⟩)
  else none

/-- Sequencing of two reader steps (the `?` operator between consecutive
reads): run `P`, then `Q` on its result, failing as soon as either fails. -/
def pseq (P : RState → Option (α × RState))
    (Q : α → RState → Option (β × RState)) (s : RState) : Option (β × RState) :=
  match P s with
  | some (a, s2) => Q a s2
  | none => none

/-- A step that returns a value without touching the stream. -/
def ppure (b : β) (s : RState) : Option (β × RState) := some (b, s)

/-- A stream-independent validation step (e.g. a UTF-8 check on already-read
bytes): succeeds or fails based only on the value. -/
def pcheck (f : α → Option β) (a : α) (s : RState) : Option (β × RState) :=
  match f a with
  | some b => some (b, s)
  | none => none

/-- Embeds `Reader::read_u32` (4 little-endian bytes). -/
def read_u32 (s : RState) : Option (Nat × RState) :=
  pseq (fun st => read_bytes st 4) (fun b => ppure (bytesToNatLE b)) s

/-- Embeds `Reader::read_u64` (8 little-endian bytes). -/
def read_u64 (s : RState) : Option (Nat × RState) :=
  pseq (fun st => read_bytes st 8) (fun b => ppure (bytesToNatLE b)) s

/-- The two's-complement reinterpretation of a `width`-bit little-endian value,
for the signed reads (`read_i8` .. `read_i64`). -/
def intFromLE (width : Nat) (b : List Nat) : Int :=
  let n := bytesToNatLE b
  if n < 2 ^ (width - 1) then (n : Int) else (n : Int) - 2 ^ width

/-- Decoding of IEEE-754 binary32 raw bits, idealized over `ℝ` (which has no
infinities or NaN: the `exponent == 0xFF` payloads, which no claim touches,
are mapped to 0). -/
noncomputable def decodeF32 (bits : Nat) : ℝ :=
  let sign := (bits >>> 31) &&& 0x1
  let exponent := (bits >>> 23) &&& 0xFF
  let mantissa := bits &&& 0x7FFFFF
  let magnitude : ℝ :=
    if exponent = 0 then (mantissa : ℝ) / 2 ^ 23 * 2 ^ (-(126 : ℤ))
    else if exponent = 0xFF then 0
    else (1 + (mantissa : ℝ) / 2 ^ 23) * 2 ^ ((exponent : ℤ) - 127)
  if sign = 0 then magnitude else -magnitude

/-- Decoding of IEEE-754 binary64 raw bits for `read_f64`, idealized over
`ℝ` (the `exponent == 0x7FF` payloads, which no claim touches, map to 0). -/
noncomputable def decodeF64 (bits : Nat) : ℝ :=
  let sign := (bits >>> 63) &&& 0x1
  let exponent := (bits >>> 52) &&& 0x7FF
  let mantissa := bits &&& 0xFFFFFFFFFFFFF
  let magnitude : ℝ :=
    if exponent = 0 then (mantissa : ℝ) / 2 ^ 52 * 2 ^ (-(1022 : ℤ))
    else if exponent = 0x7FF then 0
    else (1 + (mantissa : ℝ) / 2 ^ 52) * 2 ^ ((exponent : ℤ) - 1023)
  if sign = 0 then magnitude else -magnitude

/-- Embeds `f16_to_f32` from `tensor_loader.rs`, idealized over `ℝ` (the
infinity/NaN payloads at `exponent == 0x1F`, which no claim touches, are
mapped to 0). -/
noncomputable def f16_to_f32 (bits : Nat) : ℝ :=
  let sign := (bits >>> 15) &&& 0x1
  let exponent := (bits >>> 10) &&& 0x1F
  let mantissa := bits &&& 0x3FF
  let magnitude : ℝ :=
    if exponent = 0 then (mantissa : ℝ) / 1024 * 2 ^ (-(14 : ℤ))
    else if exponent = 0x1F then 0
    else (1 + (mantissa : ℝ) / 1024) * 2 ^ ((exponent : ℤ) - 15)
  if sign = 0 then magnitude else -magnitude

/-- Embeds `Reader::read_f32`. -/
noncomputable def read_f32 (s : RState) : Option (ℝ × RState) := do
  let (b, s2) ← read_bytes s 4
  some (decodeF32 (bytesToNatLE b), s2)

/-- Embeds `Reader::read_bool`: byte 0 is `false`, byte 1 is `true`, anything
else panics (modelled as `none`). -/
def read_bool (s : RState) : Option (Bool × RState) := do
  let (b, s2) ← read_bytes s 1
  match b.getD 0 0 with
  | 0 => some (false, s2)
  | 1 => some (true, s2)
  | _ => none

/-! UTF-8 validity, as enforced by `String::from_utf8`.  The checker is the
standard acceptance automaton: state 0 expects a leading byte; states 1-7
encode how many continuation bytes remain and the restricted range of the
next byte (overlong encodings, surrogates and values above U+10FFFF are
rejected, exactly as Rust does). -/

def utf8Step (state b : Nat) : Option Nat :=
  match state with
  | 0 =>
    if b ≤ 0x7F then some 0
    else if 0xC2 ≤ b ∧ b ≤ 0xDF then some 1
    else if b = 0xE0 then some 3
    else if b = 0xED then some 4
    else if (0xE1 ≤ b ∧ b ≤ 0xEC) ∨ (0xEE ≤ b ∧ b ≤ 0xEF) then some 2
    else if b = 0xF0 then some 6
    else if 0xF1 ≤ b ∧ b ≤ 0xF3 then some 5
    else if b = 0xF4 then some 7
    else none
  | 1 => if 0x80 ≤ b ∧ b ≤ 0xBF then some 0 else none
  | 2 => if 0x80 ≤ b ∧ b ≤ 0xBF then some 1 else none
  | 3 => if 0xA0 ≤ b ∧ b ≤ 0xBF then some 1 else none
  | 4 => if 0x80 ≤ b ∧ b ≤ 0x9F then some 1 else none
  | 5 => if 0x80 ≤ b ∧ b ≤ 0xBF then some 2 else none
  | 6 => if 0x90 ≤ b ∧ b ≤ 0xBF then some 2 else none
  | 7 => if 0x80 ≤ b ∧ b ≤ 0x8F then some 2 else none
  | _ => none

def utf8ValidAux : Nat → List Nat → Bool
  | s, [] => s = 0
  | s, b :: rest =>
    match utf8Step s b with
    | some s2 => utf8ValidAux s2 rest
    | none => false

/-- Models `String::from_utf8`: the byte list itself on valid UTF-8 input
(strings are kept as their UTF-8 bytes throughout), failure otherwise. -/
def string_from_utf8 (l : List Nat) : Option (List Nat) :=
  if utf8ValidAux 0 l then some l else none

/-- Embeds `Reader::read_string`: 8-byte length, then that many bytes which
must be valid UTF-8. -/
def read_string (s : RState) : Option (List Nat × RState) :=
  pseq (fun st => read_bytes st 8)
    (fun lenB =>
      pseq (fun st => read_bytes st (bytesToNatLE lenB))
        (fun strB => pcheck string_from_utf8 strB)) s

/-! ## Metadata typed values (`core/types.rs`, `parser.rs`) -/

inductive DataType where
  | Uint8 | Int8 | Uint16 | Int16 | Uint32 | Int32 | Float32
  | Bool | String | Array | Uint64 | Int64 | Float64
  deriving Repr, DecidableEq

inductive Data where
  | Uint8 (v : Nat)
  | Int8 (v : Int)
  | Uint16 (v : Nat)
  | Int16 (v : Int)
  | Uint32 (v : Nat)
  | Int32 (v : Int)
  | Float32 (v : ℝ)
  | Bool (v : Bool)
  | String (v : List Nat)
  | Array (v : List Data)
  | Uint64 (v : Nat)
  | Int64 (v : Int)
  | Float64 (v : ℝ)

/-- The numeric type-code table shared by `get_value_type` (`parser.rs`) and
`u32_to_data_type` (`convert.rs`): codes 0-12, anything else is an error. -/
def u32_to_data_type (code : Nat) : Option DataType :=
  match code with
  | 0 => some .Uint8
  | 1 => some .Int8
  | 2 => some .Uint16
  | 3 => some .Int16
  | 4 => some .Uint32
  | 5 => some .Int32
  | 6 => some .Float32
  | 7 => some .Bool
  | 8 => some .String
  | 9 => some .Array
  | 10 => some .Uint64
  | 11 => some .Int64
  | 12 => some .Float64
  | _ => none

/-- Embeds `get_value_type` from `parser.rs`: a 4-byte code mapped through
the table above. -/
def get_value_type (s : RState) : Option (DataType × RState) := do
  let (b, s2) ← read_bytes s 4
  let ty ← u32_to_data_type (bytesToNatLE b)
  some (ty, s2)

/-- Embeds `ReadingInfo::read_bytes_as` together with `Reader::read_array`
(`io.rs`): one typed value, recursing through nested arrays.  `fuel` bounds
the array nesting depth only (the Rust recursion is bounded by the stack);
every caller passes at least the stream length, which any terminating Rust
parse respects because each nesting level consumes 12 header bytes. -/
noncomputable def read_value : Nat → DataType → RState → Option (Data × RState)
  | _, .Uint8, s => do
    let (b, s2) ← read_bytes s 1
    some (.Uint8 (bytesToNatLE b), s2)
  | _, .Int8, s => do
    let (b, s2) ← read_bytes s 1
    some (.Int8 (intFromLE 8 b), s2)
  | _, .Uint16, s => do
    let (b, s2) ← read_bytes s 2
    some (.Uint16 (bytesToNatLE b), s2)
  | _, .Int16, s => do
    let (b, s2) ← read_bytes s 2
    some (.Int16 (intFromLE 16 b), s2)
  | _, .Uint32, s => do
    let (b, s2) ← read_bytes s 4
    some (.Uint32 (bytesToNatLE b), s2)
  | _, .Int32, s => do
    let (b, s2) ← read_bytes s 4
    some (.Int32 (intFromLE 32 b), s2)
  | _, .Float32, s => do
    let (v, s2) ← read_f32 s
    some (.Float32 v, s2)
  | _, .Bool, s => do
    let (v, s2) ← read_bool s
    some (.Bool v, s2)
  | _, .String, s => do
    let (v, s2) ← read_string s
    some (.String v, s2)
  | _, .Uint64, s => do
    let (b, s2) ← read_bytes s 8
    some (.Uint64 (bytesToNatLE b), s2)
  | _, .Int64, s => do
    let (b, s2) ← read_bytes s 8
    some (.Int64 (intFromLE 64 b), s2)
  | _, .Float64, s => do
    let (b, s2) ← read_bytes s 8
    some (.Float64 (decodeF64 (bytesToNatLE b)), s2)
  | 0, .Array, _ => none
  | fuel + 1, .Array, s => do
    let (elemTy, s2) ← get_value_type s
    let (len, s3) ← read_u64 s2
    let (elems, s4) ← (List.range len).foldlM
      (fun (acc : List Data × RState) _ => do
        let (d, st2) ← read_value fuel elemTy acc.2
        some (acc.1 ++ [d], st2)) ([], s3)
    some (.Array elems, s4)

/-- Association-list image of `BTreeMap::insert`: replaces the value when the
key is present, appends otherwise. -/
def insertKV [DecidableEq κ] (m : List (κ × ν)) (k : κ) (v : ν) : List (κ × ν) :=
  match m with
  | [] => [(k, v)]
  | (k2, v2) :: rest => if k2 = k then (k, v) :: rest else (k2, v2) :: insertKV rest k v

/-- Association-list image of map lookup. -/
def lookupKV [DecidableEq κ] (m : List (κ × ν)) (k : κ) : Option ν :=
  match m with
  | [] => none
  | (k2, v2) :: rest => if k2 = k then some v2 else lookupKV rest k

/-- Embeds `get_k` from `parser.rs` (length-prefixed UTF-8 key). -/
def get_k (s : RState) : Option (List Nat × RState) := do
  let (lenB, s2) ← read_bytes s 8
  let (keyB, s3) ← read_bytes s2 (bytesToNatLE lenB)
  let key ← string_from_utf8 keyB
  some (key, s3)

/-- Embeds `get_kv_pair` from `parser.rs`: key, 4-byte value type, value. -/
noncomputable def get_kv_pair (fuel : Nat) (s : RState) :
    Option ((List Nat × Data) × RState) := do
  let (key, s2) ← get_k s
  let (value_type, s3) ← get_value_type s2
  let (value, s4) ← read_value fuel value_type s3
  some ((key, value), s4)

/-- Embeds the loop of `get_kv_metadata`: `kv_count` pairs inserted into the
(initially given) map. -/
noncomputable def get_kv_metadata_from (fuel : Nat) (kv : List (List Nat × Data))
    (s : RState) : Nat → Option (List (List Nat × Data) × RState)
  | 0 => some (kv, s)
  | n + 1 => do
    let (p, s2) ← get_kv_pair fuel s
    get_kv_metadata_from fuel (insertKV kv p.1 p.2) s2 n

/-- Embeds `get_kv_metadata` from `parser.rs`: starts from the empty map. -/
noncomputable def get_kv_metadata (fuel : Nat) (s : RState) (kv_count : Nat) :
    Option (List (List Nat × Data) × RState) :=
  get_kv_metadata_from fuel [] s kv_count

/-! ## Tensor directory (`parser.rs`) -/

structure TensorInfo where
  name : List Nat
  n_dimensions : Nat
  dimensions : List Nat
  type_id : Nat
  offset : Nat
  deriving Repr, DecidableEq

/-- The dimension-reading loop of `get_tensor_metadata`: `count` sequential
8-byte dimensions appended to `acc`. -/
def read_dimensions (acc : List Nat) : Nat → RState → Option (List Nat × RState)
  | 0 => ppure acc
  | n + 1 => pseq read_u64 (fun d => read_dimensions (acc ++ [d]) n)

/-- Embeds `get_tensor_metadata`: name, 4-byte dimension count, that many
8-byte dimensions, 4-byte type code, 8-byte offset. -/
def get_tensor_metadata : RState → Option (TensorInfo × RState) :=
  pseq read_string (fun name =>
    pseq read_u32 (fun n_dimensions =>
      pseq (read_dimensions [] n_dimensions) (fun dimensions =>
        pseq read_u32 (fun type_id =>
          pseq read_u64 (fun offset =>
            ppure { name := name, n_dimensions := n_dimensions,
                    dimensions := dimensions, type_id := type_id,
                    offset := offset })))))

/-- Embeds the loop of `get_tensors_metadata`: `tensor_count` descriptors in
directory order (accumulator version; the wrapper starts from `[]`). -/
def get_tensors_metadata_from (acc : List TensorInfo) :
    Nat → RState → Option (List TensorInfo × RState)
  | 0 => ppure acc
  | n + 1 => pseq get_tensor_metadata
      (fun t => get_tensors_metadata_from (acc ++ [t]) n)

/-- Embeds `get_tensors_metadata` from `parser.rs`. -/
def get_tensors_metadata (tensor_count : Nat) (s : RState) :
    Option (List TensorInfo × RState) :=
  get_tensors_metadata_from [] tensor_count s

/-! ## Container opening (`file_loader/file_loader.rs`) -/

/-- Embeds `read_file` from `file_loader/file_loader.rs`: 4 header bytes
decoded as UTF-8 (note: the decoded tag is bound but never compared with
anything), version, tensor count, metadata count, the metadata map, then
the tensor directory. -/
noncomputable def read_file (data : List Nat) : Option Unit := do
  let s0 : RState := ⟨data, 0⟩
  let (headerB, s1) ← read_bytes s0 4
  let _header ← string_from_utf8 headerB
  let (_version, s2) ← read_u32 s1
  let (tensor_count, s3) ← read_u64 s2
  let (metadata_count, s4) ← read_u64 s3
  let (_kv, s5) ← get_kv_metadata (data.length + 1) s4 metadata_count
  let (_tensors_metadata, _s6) ← get_tensors_metadata tensor_count s5
  some ()

/-! ## Decoded tensors and the tensor loaders (`core/types.rs`,
`tensor_loader.rs`) -/

inductive TensorType where
  | F32 | Q4K | Q6K
  deriving Repr, DecidableEq

structure Tensor where
  tensor_type : TensorType
  name : List Nat
  dimensions : List Nat
  num_elements : Nat
  f32_data : Option (List ℝ)
  quantized_data : Option (List Nat)
  scales : Option (List ℝ)
  mins : Option (List ℝ)

/-- Embeds `load_f32_tensor`: `num_elements` sequential `f32` reads (the
post-hoc length validation in the source can never fire). -/
noncomputable def load_f32_tensor (tensor_info : TensorInfo) (num_elements : Nat)
    (s : RState) : Option Tensor := do
  let (data, _s2) ← (List.range num_elements).foldlM
    (fun (acc : List ℝ × RState) _ => do
      let (v, st2) ← read_f32 acc.2
      some (acc.1 ++ [v], st2)) ([], s)
  if data.length ≠ num_elements then none
  else
    some { tensor_type := .F32, name := tensor_info.name,
           dimensions := tensor_info.dimensions, num_elements := num_elements,
           f32_data := some data, quantized_data := none,
           scales := none, mins := none }

/-- The per-superblock scale/min extraction of `load_q4k_tensor` (also used
verbatim by `load_q6k_tensor`): `d * code` and `dmin * code` for the eight
sub-blocks. -/
noncomputable def superblock_scales_mins (block : List Nat) : List ℝ × List ℝ :=
  let d := f16_to_f32 (bytesToNatLE ((block.drop 0).take 2))
  let dmin := f16_to_f32 (bytesToNatLE ((block.drop 2).take 2))
  let scales_bytes := (block.drop 4).take 12
  ((List.range 8).map (fun j => d * ((extract_scale_min_k4 j scales_bytes).1 : ℝ)),
   (List.range 8).map (fun j => dmin * ((extract_scale_min_k4 j scales_bytes).2 : ℝ)))

/-- Embeds `load_q4k_tensor`: `ceil(n/256)` superblocks of 144 bytes read in
one go, per-superblock scales/mins and the 256-element unpack, then the
truncation to `num_elements` values and `ceil(n/32)` scales/mins.  (The
source's early `break` once `num_elements` values exist produces exactly the
same lists as unpacking every superblock and truncating.) -/
noncomputable def load_q4k_tensor (tensor_info : TensorInfo) (num_elements : Nat)
    (s : RState) : Option Tensor := do
  let num_superblocks := (num_elements + 256 - 1) / 256
  let total_bytes := num_superblocks * 144
  let (block_data, _s2) ← read_bytes s total_bytes
  let blocks := (List.range num_superblocks).map
    (fun bi => (block_data.drop (bi * 144)).take 144)
  let quantized_data :=
    ((blocks.map (fun b => unpack_q4k_block ((b.drop 16).take 128))).flatten).take
      num_elements
  let scales := ((blocks.map (fun b => (superblock_scales_mins b).1)).flatten).take
    ((num_elements + 32 - 1) / 32)
  let mins := ((blocks.map (fun b => (superblock_scales_mins b).2)).flatten).take
    ((num_elements + 32 - 1) / 32)
  if quantized_data.length ≠ num_elements then none
  else
    some { tensor_type := .Q4K, name := tensor_info.name,
           dimensions := tensor_info.dimensions, num_elements := num_elements,
           f32_data := none, quantized_data := some quantized_data,
           scales := some scales, mins := some mins }

/-- The 4-values-per-3-bytes unpacking step of `load_q6k_tensor`. -/
def unpack_q6k_triplet (b0 b1 b2 : Nat) : List Nat :=
  [b0 &&& 0x3F,
   (b0 >>> 6) ||| ((b1 &&& 0x0F) <<< 2),
   (b1 >>> 4) ||| ((b2 &&& 0x03) <<< 4),
   b2 >>> 2]

/-- The `qs` unpacking loop of `load_q6k_tensor` over one 192-byte region:
64 byte-triplets yielding 256 six-bit values. -/
def unpack_q6k_block (qs : List Nat) : List Nat :=
  ((List.range 64).map (fun t =>
    unpack_q6k_triplet (qs.getD (3 * t) 0) (qs.getD (3 * t + 1) 0)
      (qs.getD (3 * t + 2) 0))).flatten

/-- Embeds `load_q6k_tensor`: 208-byte superblocks, the same scale/min scheme
as Q4_K, and the triplet unpack (the source's per-push length guards again
equal global truncation to `num_elements`). -/
noncomputable def load_q6k_tensor (tensor_info : TensorInfo) (num_elements : Nat)
    (s : RState) : Option Tensor := do
  let num_superblocks := (num_elements + 256 - 1) / 256
  let total_bytes := num_superblocks * 208
  let (block_data, _s2) ← read_bytes s total_bytes
  let blocks := (List.range num_superblocks).map
    (fun bi => (block_data.drop (bi * 208)).take 208)
  let quantized_data :=
    ((blocks.map (fun b => unpack_q6k_block ((b.drop 16).take 192))).flatten).take
      num_elements
  let scales := ((blocks.map (fun b => (superblock_scales_mins b).1)).flatten).take
    ((num_elements + 32 - 1) / 32)
  let mins := ((blocks.map (fun b => (superblock_scales_mins b).2)).flatten).take
    ((num_elements + 32 - 1) / 32)
  if quantized_data.length ≠ num_elements then none
  else
    some { tensor_type := .Q6K, name := tensor_info.name,
           dimensions := tensor_info.dimensions, num_elements := num_elements,
           f32_data := none, quantized_data := some quantized_data,
           scales := some scales, mins := some mins }

/-- Embeds `load_tensor` from `tensor_loader.rs`: element count as the
product of the dimensions, seek to the descriptor's offset (a seek on a byte
buffer always lands where requested, so the verification never fires), then
dispatch on the quantization kind; unknown kinds are an error. -/
noncomputable def load_tensor (file : List Nat) (tensor_info : TensorInfo) :
    Option Tensor :=
  let num_elements := tensor_info.dimensions.foldl (· * ·) 1
  let s : RState := ⟨file, tensor_info.offset⟩
  match tensor_info.type_id with
  | 0 => load_f32_tensor tensor_info num_elements s
  | 12 => load_q4k_tensor tensor_info num_elements s
  | 14 => load_q6k_tensor tensor_info num_elements s
  | _ => none

/-! ## Tensor store (`core/types.rs`) -/

structure GGUFData where
  version : Nat
  nb_tensors : Nat
  nb_key_vals : Nat
  kv : List (List Nat × Data)
  tensors_metadata : List TensorInfo
  tensors : List (List Nat × Tensor)

/-- The data carried by the error message `load_tensors` formats on a
single-tensor failure: 1-based position, total count, and the failing
descriptor's name, offset and kind code. -/
structure LoadTensorsError where
  position : Nat
  total : Nat
  name : List Nat
  offset : Nat
  type_id : Nat
  deriving Repr, DecidableEq

/-- The loop of `GGUFData::load_tensors` from entry index `idx` on, with the
cache accumulated so far: inserts each decoded tensor under its name, stops
at the first failure keeping the cache as mutated up to that point. -/
noncomputable def load_tensors_from (file : List Nat) (total : Nat) (idx : Nat)
    (cache : List (List Nat × Tensor)) :
    List TensorInfo → List (List Nat × Tensor) × Option LoadTensorsError
  | [] => (cache, none)
  | info :: rest =>
    match load_tensor file info with
    | some t =>
      load_tensors_from file total (idx + 1) (insertKV cache info.name t) rest
    | none =>
      (cache, some { position := idx + 1, total := total, name := info.name,
                     offset := info.offset, type_id := info.type_id })

/-- Embeds `GGUFData::load_tensors`: every directory entry in directory
order; the store keeps whatever was inserted before a failure. -/
noncomputable def GGUFData.load_tensors (gd : GGUFData) (file : List Nat) :
    GGUFData × Option LoadTensorsError :=
  let r := load_tensors_from file gd.tensors_metadata.length 0 gd.tensors
    gd.tensors_metadata
  ({ gd with tensors := r.1 }, r.2)

/-- Embeds `GGUFData::get_tensor`: cache lookup, never decodes. -/
def GGUFData.get_tensor (gd : GGUFData) (name : List Nat) : Option Tensor :=
  lookupKV gd.tensors name

/-- Embeds `GGUFData::load_single_tensor`: descriptor lookup by name (error
when absent), no-op when already cached, otherwise decode and insert. -/
noncomputable def GGUFData.load_single_tensor (gd : GGUFData) (file : List Nat)
    (tensor_name : List Nat) : Option GGUFData :=
  match gd.tensors_metadata.find? (fun t => t.name = tensor_name) with
  | none => none
  | some tensor_info =>
    if (gd.get_tensor tensor_name).isSome then some gd
    else
      match load_tensor file tensor_info with
      | some t => some { gd with tensors := insertKV gd.tensors tensor_name t }
      | none => none

/-! ## Embedding lookup (`layers/embeddings.rs`) -/

inductive EmbedError where
  | tensorNotFound
  | loadFailed
  | not2D
  | tokenOutOfRange (token_id : Nat) (vocab_size : Nat)
  | missingData
  | indexPanic
  deriving Repr, DecidableEq

/-- The candidate embedding tensor names tried by `lookup_embeddings`. -/
def embedding_tensor_names : List (List Nat) :=
  [strBytes ("token_embd.weight"), strBytes ("tok_embeddings.weight"),
   strBytes ("embeddings.weight")]

/-- One F32 row: `embedding_data[row_start .. row_start + hidden_dim]`, with
the out-of-range slice panic modelled as failure. -/
def f32_row (data : List ℝ) (hidden_dim row_start : Nat) : Option (List ℝ) :=
  if row_start + hidden_dim ≤ data.length then
    some ((data.drop row_start).take hidden_dim)
  else none

/-- One dequantized row of the Q4K/Q6K paths:
`quantized[i] * scales[i/32] + mins[i/32]` for the `hidden_dim` elements of
the row, with the out-of-range index panics modelled as failure. -/
def dequant_row (q : List Nat) (scales mins : List ℝ) (hidden_dim row_start : Nat) :
    Option (List ℝ) :=
  if (List.range hidden_dim).all (fun d =>
      decide (row_start + d < q.length) &&
      decide ((row_start + d) / 32 < scales.length) &&
      decide ((row_start + d) / 32 < mins.length)) then
    some ((List.range hidden_dim).map (fun d =>
      (q.getD (row_start + d) 0 : ℝ) * scales.getD ((row_start + d) / 32) 0 +
        mins.getD ((row_start + d) / 32) 0))
  else none

/-- The row-collection loop shared by the three kind arms of
`lookup_embeddings`: one row per token id, in order, failing on the first
row whose indexing would panic. -/
def rows_of (g : Nat → Option (List ℝ)) : List Nat → Option (List (List ℝ))
  | [] => some []
  | id :: rest =>
    match g id with
    | some r =>
      match rows_of g rest with
      | some rs => some (r :: rs)
      | none => none
    | none => none

/-- Embeds `lookup_embeddings` from `layers/embeddings.rs`: find the
embedding tensor among the known names, lazily load it, require a 2-D shape,
take the smaller dimension as `hidden_dim` and the larger as `vocab_size`,
validate every token id against `[0, vocab_size)` (first offender reported),
then produce one row per id (`row_start = id * hidden_dim`), dequantizing
for the quantized kinds (identical Q4K and Q6K arms, as in the source). -/
noncomputable def lookup_embeddings (gd : GGUFData) (file : List Nat)
    (token_ids : List Nat) : Except EmbedError (GGUFData × List (List ℝ)) :=
  match embedding_tensor_names.find?
      (fun n => gd.tensors_metadata.any (fun t => t.name = n)) with
  | none => .error .tensorNotFound
  | some embedding_tensor_name =>
    match (if (gd.get_tensor embedding_tensor_name).isNone then
            gd.load_single_tensor file embedding_tensor_name
           else some gd) with
    | none => .error .loadFailed
    | some gd2 =>
      match gd2.get_tensor embedding_tensor_name with
      | none => .error .missingData
      | some embedding_tensor =>
        let dims := embedding_tensor.dimensions
        if dims.length ≠ 2 then .error .not2D
        else
          let hv : Nat × Nat :=
            if dims.getD 0 0 < dims.getD 1 0 then (dims.getD 0 0, dims.getD 1 0)
            else (dims.getD 1 0, dims.getD 0 0)
          let hidden_dim := hv.1
          let vocab_size := hv.2
          match token_ids.find? (fun id => decide (vocab_size ≤ id)) with
          | some id => .error (.tokenOutOfRange id vocab_size)
          | none =>
            match embedding_tensor.tensor_type with
            | .F32 =>
              match embedding_tensor.f32_data with
              | none => .error .missingData
              | some data =>
                match rows_of
                    (fun id => f32_row data hidden_dim (id * hidden_dim))
                    token_ids with
                | some rows => .ok (gd2, rows)
                | none => .error .indexPanic
            | .Q4K =>
              match embedding_tensor.quantized_data, embedding_tensor.scales,
                  embedding_tensor.mins with
              | some q, some scales, some mins =>
                match rows_of
                    (fun id => dequant_row q scales mins hidden_dim (id * hidden_dim))
                    token_ids with
                | some rows => .ok (gd2, rows)
                | none => .error .indexPanic
              | _, _, _ => .error .missingData
            | .Q6K =>
              match embedding_tensor.quantized_data, embedding_tensor.scales,
                  embedding_tensor.mins with
              | some q, some scales, some mins =>
                match rows_of
                    (fun id => dequant_row q scales mins hidden_dim (id * hidden_dim))
                    token_ids with
                | some rows => .ok (gd2, rows)
                | none => .error .indexPanic
              | _, _, _ => .error .missingData

/-! ## Theorems -/

/-- Claim C1, counterexample.  The claim asserts each `qs` byte holds two
consecutive elements (low nibble at the even index, high nibble at the odd
index), so byte `0x3A` at the start of a Q4_K block would yield `[10, 3]` as
the first two decoded element values.  On the decoder as written the first
two elements come from the low nibbles of bytes 0 and 1, so the block
starting `0x3A, 0x00, ...` decodes to `[10, 0, ...]`, not `[10, 3, ...]`. -/
theorem q4k_consecutive_nibbles_counterexample :
    ¬ (unpack_q4k_block (58 :: List.replicate 127 0)).take 2 = [10, 3] := by
  decide

/-- Claim C1, amended: within each group of 64 elements (32 bytes of `qs`),
byte `b` stores the element at offset `b % 32` of the group in its low
nibble and the element at offset `b % 32 + 32` in its high nibble — the two
elements of one byte are 32 positions apart, not consecutive.  The nibble
values themselves are as claimed (`0x3A` gives 10 and 3, `0x00` gives 0 and
0, `0xFF` gives 15 and 15). -/
theorem q4k_byte_to_elements (qs : List Nat) (b : Nat) (hb : b < 128) :
    get_quantized_value_q4k (64 * (b / 32) + b % 32) qs
        = qs.getD b 0 &&& 0x0F ∧
      get_quantized_value_q4k (64 * (b / 32) + b % 32 + 32) qs
        = (qs.getD b 0 >>> 4) &&& 0x0F := by
  unfold get_quantized_value_q4k
  have h1 : (64 * (b / 32) + b % 32) / 64 = b / 32 := by omega
  have h2 : (64 * (b / 32) + b % 32) % 64 % 32 = b % 32 := by omega
  have h3 : (64 * (b / 32) + b % 32) % 64 / 32 = 0 := by omega
  have h4 : (64 * (b / 32) + b % 32 + 32) / 64 = b / 32 := by omega
  have h5 : (64 * (b / 32) + b % 32 + 32) % 64 % 32 = b % 32 := by omega
  have h6 : (64 * (b / 32) + b % 32 + 32) % 64 / 32 = 1 := by omega
  have h7 : b / 32 * 32 + b % 32 = b := by omega
  simp only [h1, h2, h3, h4, h5, h6, h7]
  simp

/-- Witness for C1: byte 0 holding `0x3A` (= 58) gives element 0 (low
nibble) the value 10 and element 32 (high nibble) the value 3. -/
theorem q4k_byte_to_elements_witness :
    get_quantized_value_q4k (64 * (0 / 32) + 0 % 32) [58]
        = [(58 : Nat)].getD 0 0 &&& 0x0F ∧
      get_quantized_value_q4k (64 * (0 / 32) + 0 % 32 + 32) [58]
        = ([(58 : Nat)].getD 0 0 >>> 4) &&& 0x0F :=
  q4k_byte_to_elements [58] 0 (by decide)

lemma writeSlice_length {α} (l : List α) (start : Nat) (xs : List α)
    (h : start + xs.length ≤ l.length) :
    (writeSlice l start xs).length = l.length := by
  simp [writeSlice]
  omega

lemma drop_writeSlice {α} (l : List α) (start : Nat) (xs : List α)
    (hstart : start ≤ l.length) :
    (writeSlice l start xs).drop (start + xs.length)
      = l.drop (start + xs.length) := by
  have h2 : (l.take start ++ xs).length = start + xs.length := by
    simp
    omega
  have h3 : writeSlice l start xs
      = (l.take start ++ xs) ++ l.drop (start + xs.length) := by
    simp [writeSlice, List.append_assoc]
  rw [h3, ← h2, List.drop_left]

lemma append_kv_ok (c : KVCache) (k v : List ℝ)
    (h1 : c.current_pos < c.max_seq_len)
    (h2 : k.length = c.num_heads * c.head_dim)
    (h3 : v.length = c.num_heads * c.head_dim) :
    c.append_kv k v =
      ({ c with
          k_cache := writeSlice c.k_cache
            (c.current_pos * (c.num_heads * c.head_dim)) k
          v_cache := writeSlice c.v_cache
            (c.current_pos * (c.num_heads * c.head_dim)) v
          current_pos := c.current_pos + 1 }, none) := by
  simp only [KVCache.append_kv]
  rw [if_neg (by omega), if_neg (by simp [h2, h3])]

lemma append_kv_full (c : KVCache) (k v : List ℝ)
    (h : c.max_seq_len ≤ c.current_pos) :
    c.append_kv k v = (c, some (.KVCacheFull c.max_seq_len)) := by
  simp only [KVCache.append_kv]
  rw [if_pos (by omega)]

lemma appendMany_ok (pairs : List (List ℝ × List ℝ)) :
    ∀ c : KVCache,
      c.current_pos + pairs.length ≤ c.max_seq_len →
      (∀ p ∈ pairs, p.1.length = c.num_heads * c.head_dim ∧
        p.2.length = c.num_heads * c.head_dim) →
      ∃ c2, c.appendMany pairs = (c2, none) ∧
        c2.current_pos = c.current_pos + pairs.length ∧
        c2.max_seq_len = c.max_seq_len ∧
        c2.num_heads = c.num_heads ∧ c2.head_dim = c.head_dim := by
  induction pairs with
  | nil =>
    intro c h1 h2
    exact ⟨c, rfl, by simp, rfl, rfl, rfl⟩
  | cons p rest ih =>
    obtain ⟨k, v⟩ := p
    intro c h1 h2
    obtain ⟨hk, hv⟩ := h2 (k, v) (List.mem_cons_self _ _)
    have hlt : c.current_pos < c.max_seq_len := by
      simp at h1
      omega
    have hstep := append_kv_ok c k v hlt hk hv
    obtain ⟨c2, hmany, hpos, hmsl, hnh, hhd⟩ := ih
      { c with
        k_cache := writeSlice c.k_cache
          (c.current_pos * (c.num_heads * c.head_dim)) k
        v_cache := writeSlice c.v_cache
          (c.current_pos * (c.num_heads * c.head_dim)) v
        current_pos := c.current_pos + 1 }
      (by simp at h1 ⊢; omega)
      (by intro q hq; exact h2 q (List.mem_cons_of_mem _ hq))
    refine ⟨c2, ?_, by simp at hpos ⊢; omega, by simpa using hmsl,
      by simpa using hnh, by simpa using hhd⟩
    simp only [KVCache.appendMany]
    rw [hstep]
    exact hmany

/-- Claim C7: a cache of capacity `C` accepts exactly `C` correctly-sized
appends; after them the cursor equals `C`, and any further append (whatever
the input sizes: the capacity check comes first) is rejected with the
capacity error. -/
theorem cache_capacity (C nh hd : Nat) (pairs : List (List ℝ × List ℝ))
    (hlen : pairs.length = C)
    (hsz : ∀ p ∈ pairs, p.1.length = nh * hd ∧ p.2.length = nh * hd) :
    ∃ c2, (KVCache.new C nh hd).appendMany pairs = (c2, none) ∧
      c2.current_pos = C ∧
      ∀ k v : List ℝ, c2.append_kv k v = (c2, some (.KVCacheFull C)) := by
  obtain ⟨c2, hmany, hpos, hmsl, hnh, hhd⟩ :=
    appendMany_ok pairs (KVCache.new C nh hd)
      (by simp [KVCache.new, hlen])
      (by simpa [KVCache.new] using hsz)
  refine ⟨c2, hmany, ?_, ?_⟩
  · simp [KVCache.new] at hpos
    omega
  · intro k v
    have hfull : c2.max_seq_len ≤ c2.current_pos := by
      simp [KVCache.new] at hpos hmsl
      omega
    have h := append_kv_full c2 k v hfull
    rw [h]
    have : c2.max_seq_len = C := by simp [KVCache.new] at hmsl; omega
    rw [this]

/-- Witness for C7 at capacity 1 with a single one-element head. -/
theorem cache_capacity_witness :
    ∃ c2, (KVCache.new 1 1 1).appendMany [([0], [0])] = (c2, none) ∧
      c2.current_pos = 1 ∧
      ∀ k v : List ℝ, c2.append_kv k v = (c2, some (.KVCacheFull 1)) :=
  cache_capacity 1 1 1 [([0], [0])] (by simp) (by simp)

/-- Claim C9: `append_kv` is atomic on failure — whenever it reports an
error the returned state is exactly the input state — and the capacity
check precedes the length check, so a full cache yields the capacity error
regardless of the input lengths. -/
theorem append_kv_error_atomic (c : KVCache) (k v : List ℝ) :
    (∀ e, (c.append_kv k v).2 = some e → (c.append_kv k v).1 = c) ∧
    (c.max_seq_len ≤ c.current_pos →
      c.append_kv k v = (c, some (.KVCacheFull c.max_seq_len))) := by
  refine ⟨?_, append_kv_full c k v⟩
  intro e he
  simp only [KVCache.append_kv] at he ⊢
  by_cases h1 : c.current_pos ≥ c.max_seq_len
  · rw [if_pos h1]
  · rw [if_neg h1] at he ⊢
    by_cases h2 : k.length ≠ c.num_heads * c.head_dim ∨
        v.length ≠ c.num_heads * c.head_dim
    · rw [if_pos h2]
    · rw [if_neg h2] at he
      simp at he

/-- Witness for C9: appending a wrongly-sized key to an already-full cache
(capacity 0) leaves the state untouched and reports the capacity error, not
the dimension error. -/
theorem append_kv_error_atomic_witness :
    ((KVCache.new 0 1 1).append_kv [0] []).1 = KVCache.new 0 1 1 ∧
      (KVCache.new 0 1 1).append_kv [0] []
        = (KVCache.new 0 1 1, some (.KVCacheFull 0)) := by
  have h := append_kv_error_atomic (KVCache.new 0 1 1) [0] []
  have h2 := h.2 (by simp [KVCache.new])
  exact ⟨h.1 _ (by rw [h2]), h2⟩

lemma reachable_inv {c : KVCache} (h : c.Reachable) :
    c.k_cache.length = c.max_seq_len * c.num_heads * c.head_dim ∧
    c.current_pos ≤ c.max_seq_len ∧
    ∀ x ∈ c.k_cache.drop (c.current_pos * (c.num_heads * c.head_dim)), x = 0 := by
  induction h with
  | new msl nh hd =>
    refine ⟨by simp [KVCache.new, mul_assoc], by simp [KVCache.new], ?_⟩
    intro x hx
    simp only [KVCache.new, List.drop_replicate] at hx
    exact (List.mem_replicate.mp hx).2
  | @append c c2 k v oe hr heq ih =>
    obtain ⟨ihlen, ihpos, ihzero⟩ := ih
    by_cases h1 : c.current_pos < c.max_seq_len
    · by_cases h2 : k.length = c.num_heads * c.head_dim ∧
          v.length = c.num_heads * c.head_dim
      · rw [append_kv_ok c k v h1 h2.1 h2.2] at heq
        injection heq with hA hB
        subst hA
        have hbound : c.current_pos * (c.num_heads * c.head_dim) + k.length
            ≤ c.k_cache.length := by
          rw [ihlen, h2.1, ← mul_assoc]
          calc c.current_pos * c.num_heads * c.head_dim + c.num_heads * c.head_dim
              = (c.current_pos + 1) * c.num_heads * c.head_dim := by ring
            _ ≤ c.max_seq_len * c.num_heads * c.head_dim := by
                have : c.current_pos + 1 ≤ c.max_seq_len := h1
                exact Nat.mul_le_mul_right _ (Nat.mul_le_mul_right _ this)
        refine ⟨?_, by simpa using h1, ?_⟩
        · simpa using (writeSlice_length c.k_cache _ k hbound).trans ihlen
        · intro x hx
          simp only at hx
          have hdrop : (writeSlice c.k_cache
                (c.current_pos * (c.num_heads * c.head_dim)) k).drop
                ((c.current_pos + 1) * (c.num_heads * c.head_dim))
              = c.k_cache.drop ((c.current_pos + 1) * (c.num_heads * c.head_dim)) := by
            have hs : (c.current_pos + 1) * (c.num_heads * c.head_dim)
                = c.current_pos * (c.num_heads * c.head_dim) + k.length := by
              rw [h2.1]; ring
            rw [hs]
            exact drop_writeSlice c.k_cache _ k (by omega)
          rw [hdrop] at hx
          have hx2 : x ∈ c.k_cache.drop (c.current_pos * (c.num_heads * c.head_dim)) := by
            have hsplit : (c.current_pos + 1) * (c.num_heads * c.head_dim)
                = c.current_pos * (c.num_heads * c.head_dim) + (c.num_heads * c.head_dim) := by
              ring
            rw [hsplit, ← List.drop_drop] at hx
            exact List.drop_subset _ _ hx
          exact ihzero x hx2
      · have h2' : k.length ≠ c.num_heads * c.head_dim ∨
            v.length ≠ c.num_heads * c.head_dim := by tauto
        have : c.append_kv k v = (c, some (.KVDimMismatch (c.num_heads * c.head_dim))) := by
          simp only [KVCache.append_kv]
          rw [if_neg (by omega), if_pos h2']
        rw [this] at heq
        injection heq with hA hB
        subst hA
        exact ⟨ihlen, ihpos, ihzero⟩
    · rw [append_kv_full c k v (by omega)] at heq
      injection heq with hA hB
      subst hA
      exact ⟨ihlen, ihpos, ihzero⟩

/-- Claim C10: on any reachable cache (valid head, positive head width) a
key-slice read at `position = current_pos` passes the explicit bound check;
when the cursor has reached capacity the slice indexing panics out of
range, and when it has not the read returns the zero-initialized
never-written slice. -/
theorem get_k_slice_boundary (c : KVCache) (hreach : c.Reachable) (head : Nat)
    (hh : head < c.num_heads) (hd0 : 0 < c.head_dim) :
    (c.current_pos = c.max_seq_len →
      c.get_k_slice c.current_pos head = .error .rangePanic) ∧
    (c.current_pos < c.max_seq_len →
      c.get_k_slice c.current_pos head = .ok (List.replicate c.head_dim 0)) := by
  obtain ⟨hlen, hle, hzero⟩ := reachable_inv hreach
  constructor
  · intro hfull
    simp only [KVCache.get_k_slice]
    rw [if_neg (by omega), if_neg (by omega), if_neg ?_]
    rw [hlen, hfull]
    have h1 : 0 < head * c.head_dim + c.head_dim := by omega
    omega
  · intro hlt
    have hin : c.current_pos * c.num_heads * c.head_dim + head * c.head_dim
        + c.head_dim ≤ c.k_cache.length := by
      rw [hlen]
      calc c.current_pos * c.num_heads * c.head_dim + head * c.head_dim + c.head_dim
          = c.current_pos * c.num_heads * c.head_dim + (head + 1) * c.head_dim := by ring
        _ ≤ c.current_pos * c.num_heads * c.head_dim + c.num_heads * c.head_dim := by
            have : head + 1 ≤ c.num_heads := hh
            exact Nat.add_le_add_left (Nat.mul_le_mul_right _ this) _
        _ = (c.current_pos + 1) * c.num_heads * c.head_dim := by ring
        _ ≤ c.max_seq_len * c.num_heads * c.head_dim := by
            exact Nat.mul_le_mul_right _ (Nat.mul_le_mul_right _ hlt)
    simp only [KVCache.get_k_slice]
    rw [if_neg (by omega), if_neg (by omega), if_pos hin]
    congr 1
    rw [List.eq_replicate_iff]
    constructor
    · simp [List.length_take, List.length_drop]
      omega
    · intro b hb
      have hb1 : b ∈ c.k_cache.drop
          (c.current_pos * c.num_heads * c.head_dim + head * c.head_dim) :=
        List.take_subset _ _ hb
      have hsplit : c.current_pos * c.num_heads * c.head_dim + head * c.head_dim
          = c.current_pos * (c.num_heads * c.head_dim) + head * c.head_dim := by
        ring
      rw [hsplit, ← List.drop_drop] at hb1
      exact hzero b (List.drop_subset _ _ hb1)

/-- Witness for C10: a fresh zero-capacity cache has its cursor at capacity
and the key read at the cursor panics on slice indexing. -/
theorem get_k_slice_boundary_witness :
    (KVCache.new 0 1 1).get_k_slice (KVCache.new 0 1 1).current_pos 0
      = .error .rangePanic :=
  (get_k_slice_boundary (KVCache.new 0 1 1) (.new 0 1 1) 0
    (by simp [KVCache.new]) (by simp [KVCache.new])).1 (by simp [KVCache.new])

/-- Claim C2, code bug.  The claim (and the spec) say `rope` rotates the
disjoint pairs `(v[2k], v[2k+1])` for `2k < rotary_dim` and leaves elements
at index `>= rotary_dim` unchanged.  The implementation instead rotates the
overlapping pairs `(v[i], v[i+1])` for every `i < len/2` and never consults
`rotary_dim` beyond the panic check: on `v = [0,0,1,0]` with `pos = 1`,
`base = 1`, `head_dim = 4`, `rotary_dim = 2`, element 2 — which the claim
requires untouched — comes back as `cos 1 ≠ 1`. -/
theorem rope_modifies_unrotated_element :
    ∃ out, rope [0, 0, 1, 0] 1 1 4 2 = some out ∧ out.getD 2 0 ≠ 1 := by
  have hang : ∀ i : Nat, ropeAngle 1 1 4 i = 1 := by
    intro i
    unfold ropeAngle
    simp
  have hcomp : rope [0, 0, 1, 0] 1 1 4 2
      = some [0, -Real.sin 1, Real.cos 1, 0] := by
    unfold rope
    rw [if_neg (by norm_num)]
    norm_num [List.range_succ, ropeStep, hang]
  refine ⟨_, hcomp, ?_⟩
  have hπ := Real.pi_gt_three
  have hne : Real.cos 1 ≠ 1 := by
    intro h
    have h2 := (Real.cos_eq_one_iff_of_lt_of_lt (x := 1) (by nlinarith)
      (by nlinarith)).mp h
    norm_num at h2
  simpa using hne

/-- Claim C3, code bug.  The claim (and the spec) say the gated activation
computes `x[i] * sigmoid(x[i]) * gate[i]` with `sigmoid(x) = 1/(1+e^(-x))`
for both signs.  The non-positive branch of the source computes
`x.exp() / (1.0 / x.exp())` — that is `e^(2x)`, not `e^x/(1+e^x)` — so at
`x = [-1]`, `gate = [1]` the produced value differs from the claimed one. -/
theorem swiglu_negative_branch_bug :
    swiglu [-1] [1] ≠ [(-1 : ℝ) * (1 / (1 + Real.exp (-(-1)))) * 1] := by
  have hlhs : swiglu [-1] [1]
      = [(-1 : ℝ) * (Real.exp (-1) / (1 / Real.exp (-1))) * 1] := by
    norm_num [swiglu, sigmoid, sigmoidElem, List.range_succ]
  rw [hlhs]
  simp only [ne_eq, List.cons.injEq, and_true]
  intro h
  have hE : (2 : ℝ) < Real.exp 1 := by
    have := Real.exp_one_gt_d9
    linarith
  have hpos : (0 : ℝ) < Real.exp 1 := Real.exp_pos 1
  have hinv : Real.exp (-1 : ℝ) = (Real.exp 1)⁻¹ := Real.exp_neg 1
  rw [hinv, neg_neg] at h
  have hne : Real.exp 1 ≠ 0 := ne_of_gt hpos
  have hne2 : (1 : ℝ) + Real.exp 1 ≠ 0 := by positivity
  field_simp at h
  nlinarith [h, hE, hpos]

/-- Claim C4, code bug.  The claim (and the spec) say `read_file` checks
that the first 4 bytes equal the fixed magic tag and rejects any other
prefix.  The source binds the decoded 4-byte header string but never
compares it with anything: a container starting with `XXXX` (bytes
88,88,88,88) followed by well-formed header fields (version 0, zero tensors,
zero metadata entries) is accepted, even though its prefix is not the GGUF
tag. -/
theorem read_file_accepts_wrong_magic :
    read_file ([88, 88, 88, 88] ++ List.replicate 20 0) = some () ∧
      ¬ ([88, 88, 88, 88] : List Nat) = strBytes ("GGUF") := by
  exact ⟨by rfl, by decide⟩

/-! Soundness property of reader-based parsers, used for the directory
claims: a successful parse pins down the final cursor, and the same parse on
a truncation of the data fails before the cut and is unchanged after it. -/

def ParserOk (P : RState → Option (α × RState)) : Prop :=
  ∀ d p a s2, p ≤ d.length → P ⟨d, p⟩ = some (a, s2) →
    s2.data = d ∧ p ≤ s2.pos ∧ s2.pos ≤ d.length ∧
    (∀ m, p ≤ m → m < s2.pos → P ⟨d.take m, p⟩ = none) ∧
    (∀ m, s2.pos ≤ m → m ≤ d.length → P ⟨d.take m, p⟩ = some (a, ⟨d.take m, s2.pos⟩))

lemma parserOk_ppure (b : β) : ParserOk (ppure b) := by
  intro d p a s2 hp h
  simp only [ppure, Option.some.injEq, Prod.mk.injEq] at h
  obtain ⟨rfl, rfl⟩ := h
  refine ⟨rfl, le_refl _, hp, ?_, ?_⟩
  · intro m h1 h2
    simp at h2
    omega
  · intro m h1 h2
    simp [ppure]

lemma parserOk_pcheck (f : α → Option β) (a : α) : ParserOk (pcheck f a) := by
  intro d p b s2 hp h
  unfold pcheck at h
  cases hf : f a with
  | none => rw [hf] at h; simp at h
  | some c =>
    rw [hf] at h
    simp only [Option.some.injEq, Prod.mk.injEq] at h
    obtain ⟨rfl, rfl⟩ := h
    refine ⟨rfl, le_refl _, hp, ?_, ?_⟩
    · intro m h1 h2
      simp at h2
      omega
    · intro m h1 h2
      simp [pcheck, hf]

lemma parserOk_read_bytes (n : Nat) : ParserOk (fun s => read_bytes s n) := by
  intro d p a s2 hp h
  simp only [read_bytes] at h
  by_cases hc : p + n ≤ d.length
  · rw [if_pos hc] at h
    simp only [Option.some.injEq, Prod.mk.injEq] at h
    obtain ⟨rfl, rfl⟩ := h
    refine ⟨rfl, by simp, by simpa using hc, ?_, ?_⟩
    · intro m h1 h2
      simp only [read_bytes]
      rw [if_neg]
      simp only [List.length_take]
      simp at h2
      omega
    · intro m h1 h2
      simp only [read_bytes]
      rw [if_pos (by simp only [List.length_take]; simp at h1; omega)]
      have hval : ((d.take m).drop p).take n = (d.drop p).take n := by
        rw [List.drop_take, List.take_take]
        congr 1
        simp at h1
        omega
      simp [hval]
  · rw [if_neg hc] at h
    simp at h

lemma parserOk_pseq {P : RState → Option (α × RState)}
    {Q : α → RState → Option (β × RState)}
    (hP : ParserOk P) (hQ : ∀ a, ParserOk (Q a)) : ParserOk (pseq P Q) := by
  intro d p b s3 hp h
  unfold pseq at h
  cases hPs : P ⟨d, p⟩ with
  | none => rw [hPs] at h; simp at h
  | some r =>
    obtain ⟨a, s2⟩ := r
    rw [hPs] at h
    obtain ⟨hdata, hple, hlen, hfail, hok⟩ := hP d p a s2 hp hPs
    obtain ⟨sd, sp⟩ := s2
    simp only at hdata hple hlen hfail hok
    subst hdata
    obtain ⟨hdata2, hple2, hlen2, hfail2, hok2⟩ := hQ a sd sp b s3 hlen h
    refine ⟨hdata2, by omega, hlen2, ?_, ?_⟩
    · intro m h1 h2
      unfold pseq
      by_cases hm : m < sp
      · rw [hfail m h1 hm]
      · push_neg at hm
        rw [hok m hm (by omega)]
        exact hfail2 m hm h2
    · intro m h1 h2
      unfold pseq
      rw [hok m (by omega) h2]
      exact hok2 m h1 h2

lemma parserOk_read_u32 : ParserOk read_u32 :=
  parserOk_pseq (parserOk_read_bytes 4) (fun b => parserOk_ppure _)

lemma parserOk_read_u64 : ParserOk read_u64 :=
  parserOk_pseq (parserOk_read_bytes 8) (fun b => parserOk_ppure _)

lemma parserOk_read_string : ParserOk read_string :=
  parserOk_pseq (parserOk_read_bytes 8) (fun lenB =>
    parserOk_pseq (parserOk_read_bytes (bytesToNatLE lenB)) (fun strB =>
      parserOk_pcheck string_from_utf8 strB))

lemma parserOk_read_dimensions (n : Nat) :
    ∀ acc, ParserOk (read_dimensions acc n) := by
  induction n with
  | zero => exact fun acc => parserOk_ppure acc
  | succ n ih =>
    exact fun acc =>
      parserOk_pseq parserOk_read_u64 (fun dim => ih (acc ++ [dim]))

lemma parserOk_get_tensor_metadata : ParserOk get_tensor_metadata :=
  parserOk_pseq parserOk_read_string (fun name =>
    parserOk_pseq parserOk_read_u32 (fun n_dimensions =>
      parserOk_pseq (parserOk_read_dimensions n_dimensions []) (fun dimensions =>
        parserOk_pseq parserOk_read_u32 (fun type_id =>
          parserOk_pseq parserOk_read_u64 (fun offset =>
            parserOk_ppure _)))))

lemma parserOk_get_tensors_metadata_from (n : Nat) :
    ∀ acc, ParserOk (get_tensors_metadata_from acc n) := by
  induction n with
  | zero => exact fun acc => parserOk_ppure acc
  | succ n ih =>
    exact fun acc =>
      parserOk_pseq parserOk_get_tensor_metadata (fun t => ih (acc ++ [t]))

lemma get_tensors_metadata_from_length (n : Nat) :
    ∀ acc s ts s2, get_tensors_metadata_from acc n s = some (ts, s2) →
      ts.length = acc.length + n := by
  induction n with
  | zero =>
    intro acc s ts s2 h
    simp only [get_tensors_metadata_from, ppure, Option.some.injEq,
      Prod.mk.injEq] at h
    obtain ⟨rfl, -⟩ := h
    omega
  | succ n ih =>
    intro acc s ts s2 h
    simp only [get_tensors_metadata_from, pseq] at h
    cases hPs : get_tensor_metadata s with
    | none => rw [hPs] at h; simp at h
    | some r =>
      obtain ⟨t, s3⟩ := r
      rw [hPs] at h
      have := ih (acc ++ [t]) s3 ts s2 h
      simp at this
      omega

lemma insertKV_length_le [DecidableEq κ] (m : List (κ × ν)) (k : κ) (v : ν) :
    (insertKV m k v).length ≤ m.length + 1 := by
  induction m with
  | nil => simp [insertKV]
  | cons p rest ih =>
    obtain ⟨k2, v2⟩ := p
    simp only [insertKV]
    by_cases h : k2 = k
    · rw [if_pos h]
      simp
    · rw [if_neg h]
      simp
      omega

lemma get_kv_metadata_from_le (fuel : Nat) (n : Nat) :
    ∀ kv s out s2, get_kv_metadata_from fuel kv s n = some (out, s2) →
      out.length ≤ kv.length + n := by
  induction n with
  | zero =>
    intro kv s out s2 h
    simp only [get_kv_metadata_from, Option.some.injEq, Prod.mk.injEq] at h
    obtain ⟨rfl, -⟩ := h
    omega
  | succ n ih =>
    intro kv s out s2 h
    simp only [get_kv_metadata_from] at h
    cases hPs : get_kv_pair fuel s with
    | none => rw [hPs] at h; simp at h
    | some r =>
      obtain ⟨p, s3⟩ := r
      rw [hPs] at h
      have h1 := ih (insertKV kv p.1 p.2) s3 out s2 h
      have h2 := insertKV_length_le kv p.1 p.2
      omega

/-- Claim C5, amended.  Parsing a well-formed container always yields
exactly `tensor_count` descriptors, and reads exactly `metadata_count`
key/value pairs — but the metadata map retains at most `metadata_count`
entries, fewer when two entries share a key (the later entry overwrites the
earlier, see the counterexample); truncating the input below the directory
parse's end position always makes the directory parse fail, producing no
partial directory. -/
theorem directory_integrity :
    (∀ N s ts s2, s.pos ≤ s.data.length →
      get_tensors_metadata N s = some (ts, s2) → ts.length = N) ∧
    (∀ fuel M s kv s2, get_kv_metadata fuel s M = some (kv, s2) →
      kv.length ≤ M) ∧
    (∀ d N ts s2, get_tensors_metadata N ⟨d, 0⟩ = some (ts, s2) →
      ∀ m, m < s2.pos → get_tensors_metadata N ⟨d.take m, 0⟩ = none) := by
  refine ⟨?_, ?_, ?_⟩
  · intro N s ts s2 hp h
    have := get_tensors_metadata_from_length N [] s ts s2 h
    simpa using this
  · intro fuel M s kv s2 h
    have := get_kv_metadata_from_le fuel M [] s kv s2 h
    simpa using this
  · intro d N ts s2 h m hm
    have hok := parserOk_get_tensors_metadata_from N [] d 0 ts s2 (by omega) h
    exact hok.2.2.2.1 m (by omega) hm

/-- Witness for C5 on a one-descriptor directory (name `a`, one dimension of
size 1, kind 0, offset 0, 33 bytes): the parse yields exactly one
descriptor, an empty metadata section yields an empty map, and cutting the
33-byte directory to 32 bytes makes the parse fail. -/
theorem directory_integrity_witness :
    ([({ name := [97], n_dimensions := 1, dimensions := [1], type_id := 0,
         offset := 0 } : TensorInfo)] : List TensorInfo).length = 1 ∧
    ([] : List (List Nat × Data)).length ≤ 0 ∧
    get_tensors_metadata 1
      ⟨([1, 0, 0, 0, 0, 0, 0, 0, 97, 1, 0, 0, 0, 1, 0, 0, 0, 0, 0, 0, 0,
         0, 0, 0, 0, 0, 0, 0, 0, 0, 0, 0, 0] : List Nat).take 32, 0⟩ = none := by
  refine ⟨?_, ?_, ?_⟩
  · exact directory_integrity.1 1
      ⟨[1, 0, 0, 0, 0, 0, 0, 0, 97, 1, 0, 0, 0, 1, 0, 0, 0, 0, 0, 0, 0,
        0, 0, 0, 0, 0, 0, 0, 0, 0, 0, 0, 0], 0⟩ _ ⟨_, 33⟩ (by simp) (by rfl)
  · exact directory_integrity.2.1 100 0 ⟨[], 0⟩ [] ⟨[], 0⟩ (by rfl)
  · exact directory_integrity.2.2
      [1, 0, 0, 0, 0, 0, 0, 0, 97, 1, 0, 0, 0, 1, 0, 0, 0, 0, 0, 0, 0,
       0, 0, 0, 0, 0, 0, 0, 0, 0, 0, 0, 0] 1 _ ⟨_, 33⟩ (by rfl) 32 (by decide)

/-- Claim C5, counterexample to the duplicate-key clause: a metadata section
declaring `metadata_count = 2` whose two entries share the key `a` (values
`Uint8 7` then `Uint8 9`) parses into a map with a single entry, not two. -/
theorem kv_duplicate_key_counterexample :
    (get_kv_metadata 100
        ⟨[1, 0, 0, 0, 0, 0, 0, 0, 97, 0, 0, 0, 0, 7,
          1, 0, 0, 0, 0, 0, 0, 0, 97, 0, 0, 0, 0, 9], 0⟩ 2).map
      (fun r => r.1.length) = some 1 := by
  rfl

lemma lookupKV_insertKV_self [DecidableEq κ] (m : List (κ × ν)) (k : κ) (v : ν) :
    lookupKV (insertKV m k v) k = some v := by
  induction m with
  | nil => simp [insertKV, lookupKV]
  | cons p rest ih =>
    obtain ⟨k2, v2⟩ := p
    simp only [insertKV]
    by_cases h : k2 = k
    · rw [if_pos h]
      simp [lookupKV]
    · rw [if_neg h]
      simp only [lookupKV]
      rw [if_neg h]
      exact ih

lemma lookupKV_insertKV_preserve [DecidableEq κ] (m : List (κ × ν)) (k n : κ)
    (v : ν) (h : (lookupKV m n).isSome) :
    (lookupKV (insertKV m k v) n).isSome := by
  induction m with
  | nil => simp [lookupKV] at h
  | cons p rest ih =>
    obtain ⟨k2, v2⟩ := p
    simp only [insertKV]
    by_cases hk : k2 = k
    · rw [if_pos hk]
      simp only [lookupKV] at h ⊢
      by_cases hn : k = n
      · rw [if_pos hn]; simp
      · rw [if_neg hn]
        rw [← hk] at hn
        rw [if_neg hn] at h
        exact h
    · rw [if_neg hk]
      simp only [lookupKV] at h ⊢
      by_cases hn : k2 = n
      · rw [if_pos hn]; simp
      · rw [if_neg hn] at h ⊢
        exact ih h

lemma load_tensors_from_preserves (file : List Nat) (total : Nat)
    (rest : List TensorInfo) :
    ∀ idx cache n, (lookupKV cache n).isSome →
      (lookupKV (load_tensors_from file total idx cache rest).1 n).isSome := by
  induction rest with
  | nil => intro idx cache n h; exact h
  | cons info rest' ih =>
    intro idx cache n h
    cases hload : load_tensor file info with
    | some t =>
      have hred : load_tensors_from file total idx cache (info :: rest')
          = load_tensors_from file total (idx + 1)
              (insertKV cache info.name t) rest' := by
        simp [load_tensors_from, hload]
      rw [hred]
      exact ih (idx + 1) (insertKV cache info.name t) n
        (lookupKV_insertKV_preserve _ _ _ _ h)
    | none =>
      have hred : (load_tensors_from file total idx cache (info :: rest')).1
          = cache := by
        simp [load_tensors_from, hload]
      rw [hred]
      exact h

lemma load_tensors_from_failure (file : List Nat) (total : Nat)
    (rest : List TensorInfo) :
    ∀ idx cache e,
      (load_tensors_from file total idx cache rest).2 = some e →
      ∃ pre info post, rest = pre ++ info :: post ∧
        load_tensor file info = none ∧
        (∀ i ∈ pre, ∃ t, load_tensor file i = some t) ∧
        e = { position := idx + pre.length + 1, total := total,
              name := info.name, offset := info.offset,
              type_id := info.type_id } ∧
        (∀ i ∈ pre,
          (lookupKV (load_tensors_from file total idx cache rest).1 i.name).isSome) := by
  induction rest with
  | nil =>
    intro idx cache e h
    simp [load_tensors_from] at h
  | cons info rest' ih =>
    intro idx cache e h
    cases hload : load_tensor file info with
    | some t =>
      have hred : load_tensors_from file total idx cache (info :: rest')
          = load_tensors_from file total (idx + 1)
              (insertKV cache info.name t) rest' := by
        simp [load_tensors_from, hload]
      rw [hred] at h
      obtain ⟨pre, info2, post, hsplit, hfail, hpreok, herr, hcache⟩ :=
        ih (idx + 1) (insertKV cache info.name t) e h
      refine ⟨info :: pre, info2, post, by rw [hsplit]; rfl, hfail, ?_, ?_, ?_⟩
      · intro i hi
        rcases List.mem_cons.mp hi with rfl | hi2
        · exact ⟨t, hload⟩
        · exact hpreok i hi2
      · rw [herr]
        have hp : idx + 1 + pre.length + 1 = idx + (info :: pre).length + 1 := by
          simp
          omega
        rw [hp]
      · intro i hi
        rw [hred]
        rcases List.mem_cons.mp hi with rfl | hi2
        · exact load_tensors_from_preserves file total rest' (idx + 1)
            (insertKV cache i.name t) i.name
            (by rw [lookupKV_insertKV_self]; rfl)
        · have := hcache i hi2
          exact this
    | none =>
      have hred : load_tensors_from file total idx cache (info :: rest')
          = (cache, some { position := idx + 1, total := total,
                           name := info.name, offset := info.offset,
                           type_id := info.type_id }) := by
        simp [load_tensors_from, hload]
      rw [hred] at h
      simp only [Option.some.injEq] at h
      refine ⟨[], info, rest', by simp, hload, by simp, ?_, by simp⟩
      rw [← h]
      rfl

/-- Claim C6: when `load_tensors` fails, the directory splits as
`pre ++ failing ++ post` with every entry of `pre` decoding successfully,
the error carries the failing entry's 1-based position (`pre.length + 1`),
the total count, and that entry's name, offset and kind code, and every
tensor decoded before the failure is still present in the cache of the
returned store. -/
theorem load_tensors_failure (gd : GGUFData) (file : List Nat)
    (e : LoadTensorsError) (h : (gd.load_tensors file).2 = some e) :
    ∃ pre info post, gd.tensors_metadata = pre ++ info :: post ∧
      load_tensor file info = none ∧
      (∀ i ∈ pre, ∃ t, load_tensor file i = some t) ∧
      e = { position := pre.length + 1, total := gd.tensors_metadata.length,
            name := info.name, offset := info.offset,
            type_id := info.type_id } ∧
      (∀ i ∈ pre,
        (lookupKV (gd.load_tensors file).1.tensors i.name).isSome) := by
  have h2 : (load_tensors_from file gd.tensors_metadata.length 0 gd.tensors
      gd.tensors_metadata).2 = some e := h
  obtain ⟨pre, info, post, hsplit, hfail, hpreok, herr, hcache⟩ :=
    load_tensors_from_failure file gd.tensors_metadata.length
      gd.tensors_metadata 0 gd.tensors e h2
  exact ⟨pre, info, post, hsplit, hfail, hpreok, by simpa using herr, hcache⟩

/-- Witness for C6: a two-entry directory whose first entry (`a`, one `f32`
element at offset 0) decodes from the 4-byte file and whose second entry
(`b`) declares the unsupported kind 99; the loader reports position 2 of 2
with `b`'s name, offset and kind. -/
theorem load_tensors_failure_witness :
    ∃ pre info post,
      ([{ name := [97], n_dimensions := 1, dimensions := [1], type_id := 0,
          offset := 0 },
        { name := [98], n_dimensions := 1, dimensions := [1], type_id := 99,
          offset := 0 }] : List TensorInfo) = pre ++ info :: post ∧
      load_tensor [0, 0, 0, 0] info = none ∧
      (∀ i ∈ pre, ∃ t, load_tensor [0, 0, 0, 0] i = some t) ∧
      ({ position := 2, total := 2, name := [98], offset := 0,
         type_id := 99 } : LoadTensorsError)
        = { position := pre.length + 1,
            total := ([{ name := [97], n_dimensions := 1, dimensions := [1],
                         type_id := 0, offset := 0 },
                       { name := [98], n_dimensions := 1, dimensions := [1],
                         type_id := 99, offset := 0 }] : List TensorInfo).length,
            name := info.name, offset := info.offset,
            type_id := info.type_id } ∧
      (∀ i ∈ pre,
        (lookupKV (GGUFData.load_tensors
            { version := 0, nb_tensors := 2, nb_key_vals := 0, kv := [],
              tensors_metadata :=
                [{ name := [97], n_dimensions := 1, dimensions := [1],
                   type_id := 0, offset := 0 },
                 { name := [98], n_dimensions := 1, dimensions := [1],
                   type_id := 99, offset := 0 }],
              tensors := [] } [0, 0, 0, 0]).1.tensors i.name).isSome) := by
  have h := load_tensors_failure
    { version := 0, nb_tensors := 2, nb_key_vals := 0, kv := [],
      tensors_metadata :=
        [{ name := [97], n_dimensions := 1, dimensions := [1],
           type_id := 0, offset := 0 },
         { name := [98], n_dimensions := 1, dimensions := [1],
           type_id := 99, offset := 0 }],
      tensors := [] } [0, 0, 0, 0]
    { position := 2, total := 2, name := [98], offset := 0, type_id := 99 }
    (by rfl)
  exact h

/-- Well-formedness of a decoded 2-D tensor, as established by the loaders:
the payload arrays are present for the tensor's kind and have the lengths
the data model prescribes (`num_elements = d0 * d1` values,
`ceil(num_elements/32)` scales and mins). -/
def TensorWF (t : Tensor) : Prop :=
  t.dimensions.length = 2 ∧
  match t.tensor_type with
  | .F32 => ∃ data, t.f32_data = some data ∧
      data.length = t.dimensions.getD 0 0 * t.dimensions.getD 1 0
  | .Q4K | .Q6K => ∃ q sc mn, t.quantized_data = some q ∧ t.scales = some sc ∧
      t.mins = some mn ∧
      q.length = t.dimensions.getD 0 0 * t.dimensions.getD 1 0 ∧
      sc.length = (q.length + 32 - 1) / 32 ∧
      mn.length = (q.length + 32 - 1) / 32

lemma f32_row_ok (data : List ℝ) (hidden row_start : Nat)
    (h : row_start + hidden ≤ data.length) :
    ∃ r, f32_row data hidden row_start = some r ∧ r.length = hidden := by
  refine ⟨_, by rw [f32_row, if_pos h], ?_⟩
  simp only [List.length_take, List.length_drop]
  omega

lemma dequant_row_ok (q : List Nat) (scales mins : List ℝ)
    (hidden row_start : Nat) (hq : row_start + hidden ≤ q.length)
    (hs : scales.length = (q.length + 32 - 1) / 32)
    (hm : mins.length = (q.length + 32 - 1) / 32) :
    ∃ r, dequant_row q scales mins hidden row_start = some r ∧
      r.length = hidden := by
  have hall : ((List.range hidden).all (fun d =>
      decide (row_start + d < q.length) &&
      decide ((row_start + d) / 32 < scales.length) &&
      decide ((row_start + d) / 32 < mins.length))) = true := by
    rw [List.all_eq_true]
    intro d hd
    rw [List.mem_range] at hd
    have h1 : row_start + d < q.length := by omega
    have h2 : (row_start + d) / 32 < (q.length + 32 - 1) / 32 := by omega
    simp only [Bool.and_eq_true, decide_eq_true_eq]
    exact ⟨⟨h1, by omega⟩, by omega⟩
  refine ⟨_, by rw [dequant_row, if_pos hall], ?_⟩
  simp

lemma rows_of_ok (g : Nat → Option (List ℝ)) (hidden : Nat) (ids : List Nat)
    (h : ∀ id ∈ ids, ∃ r, g id = some r ∧ r.length = hidden) :
    ∃ rows, rows_of g ids = some rows ∧ rows.length = ids.length ∧
      ∀ r ∈ rows, r.length = hidden := by
  induction ids with
  | nil => exact ⟨[], rfl, rfl, by simp⟩
  | cons id rest ih =>
    obtain ⟨r, hr, hrl⟩ := h id (List.mem_cons_self _ _)
    obtain ⟨rows, hrows, hlen, hall⟩ :=
      ih (fun i hi => h i (List.mem_cons_of_mem _ hi))
    refine ⟨r :: rows, ?_, by simp [hlen], ?_⟩
    · simp [rows_of, hr, hrows]
    · intro x hx
      rcases List.mem_cons.mp hx with rfl | hx2
      · exact hrl
      · exact hall x hx2

lemma min_mul_max (a b : Nat) : min a b * max a b = a * b := by
  rcases le_total a b with h | h
  · rw [min_eq_left h, max_eq_right h]
  · rw [min_eq_right h, max_eq_left h, Nat.mul_comm]

/-- Claim C8: embedding lookup over a cached, well-formed 2-D embedding
tensor (larger dimension = vocabulary size `V`, smaller = `hidden_size`):
when some token id reaches `V` the lookup fails with an error naming an
offending id and the bound `V`; when every id is below `V` it succeeds with
one row of length `hidden_size` per id, for the plain and the quantized
kinds alike. -/
theorem lookup_embeddings_bounds (gd : GGUFData) (file : List Nat)
    (token_ids : List Nat) (name : List Nat) (t : Tensor)
    (hname : embedding_tensor_names.find?
        (fun n => gd.tensors_metadata.any (fun ti => ti.name = n)) = some name)
    (hcached : gd.get_tensor name = some t)
    (hwf : TensorWF t) :
    ((∃ id ∈ token_ids,
        max (t.dimensions.getD 0 0) (t.dimensions.getD 1 0) ≤ id) →
      ∃ id, id ∈ token_ids ∧
        max (t.dimensions.getD 0 0) (t.dimensions.getD 1 0) ≤ id ∧
        lookup_embeddings gd file token_ids = .error (.tokenOutOfRange id
          (max (t.dimensions.getD 0 0) (t.dimensions.getD 1 0)))) ∧
    ((∀ id ∈ token_ids,
        id < max (t.dimensions.getD 0 0) (t.dimensions.getD 1 0)) →
      ∃ rows, lookup_embeddings gd file token_ids = .ok (gd, rows) ∧
        rows.length = token_ids.length ∧
        ∀ r ∈ rows,
          r.length = min (t.dimensions.getD 0 0) (t.dimensions.getD 1 0)) := by
  obtain ⟨hdim2, hdata⟩ := hwf
  set d0 := t.dimensions.getD 0 0 with hd0
  set d1 := t.dimensions.getD 1 0 with hd1
  have hvmm : (if d0 < d1 then (d0, d1) else (d1, d0))
      = (min d0 d1, max d0 d1) := by
    by_cases hlt : d0 < d1
    · rw [if_pos hlt, min_eq_left hlt.le, max_eq_right hlt.le]
    · rw [if_neg hlt, min_eq_right (by omega), max_eq_left (by omega)]
  have hbase : lookup_embeddings gd file token_ids
      = (match token_ids.find? (fun id => decide (max d0 d1 ≤ id)) with
        | some id => .error (.tokenOutOfRange id (max d0 d1))
        | none =>
          match t.tensor_type with
          | .F32 =>
            match t.f32_data with
            | none => .error .missingData
            | some data =>
              match rows_of
                  (fun id => f32_row data (min d0 d1) (id * min d0 d1))
                  token_ids with
              | some rows => .ok (gd, rows)
              | none => .error .indexPanic
          | .Q4K =>
            match t.quantized_data, t.scales, t.mins with
            | some q, some scales, some mins =>
              match rows_of
                  (fun id => dequant_row q scales mins (min d0 d1)
                    (id * min d0 d1)) token_ids with
              | some rows => .ok (gd, rows)
              | none => .error .indexPanic
            | _, _, _ => .error .missingData
          | .Q6K =>
            match t.quantized_data, t.scales, t.mins with
            | some q, some scales, some mins =>
              match rows_of
                  (fun id => dequant_row q scales mins (min d0 d1)
                    (id * min d0 d1)) token_ids with
              | some rows => .ok (gd, rows)
              | none => .error .indexPanic
            | _, _, _ => .error .missingData) := by
    rw [lookup_embeddings, hname]
    simp only [hcached, Option.isNone_some, Bool.false_eq_true, if_false,
      ← hd0, ← hd1, hvmm]
    rw [if_neg (by omega)]
  constructor
  · intro hbad
    obtain ⟨idb, hidb, hvb⟩ := hbad
    have hfind : (token_ids.find? (fun id => decide (max d0 d1 ≤ id))).isSome := by
      rw [List.find?_isSome]
      exact ⟨idb, hidb, by simpa using hvb⟩
    obtain ⟨id0, hid0⟩ := Option.isSome_iff_exists.mp hfind
    refine ⟨id0, List.mem_of_find?_eq_some hid0, ?_, ?_⟩
    · have := List.find?_some hid0
      simpa using this
    · rw [hbase, hid0]
  · intro hgood
    have hfind : token_ids.find? (fun id => decide (max d0 d1 ≤ id)) = none := by
      rw [List.find?_eq_none]
      intro x hx
      simp only [decide_eq_true_eq]
      exact not_le.mpr (hgood x hx)
    have hrowlen : ∀ id ∈ token_ids,
        id * min d0 d1 + min d0 d1 ≤ d0 * d1 := by
      intro id hid
      have h1 : id + 1 ≤ max d0 d1 := hgood id hid
      calc id * min d0 d1 + min d0 d1 = (id + 1) * min d0 d1 := by ring
        _ ≤ max d0 d1 * min d0 d1 := Nat.mul_le_mul_right _ h1
        _ = d0 * d1 := by rw [Nat.mul_comm, min_mul_max]
    cases htt : t.tensor_type with
    | F32 =>
      rw [htt] at hdata
      obtain ⟨data, hsome, hdl⟩ := hdata
      have hgok : ∀ id ∈ token_ids, ∃ r,
          f32_row data (min d0 d1) (id * min d0 d1) = some r ∧
            r.length = min d0 d1 := by
        intro id hid
        exact f32_row_ok data _ _ (by rw [hdl]; exact hrowlen id hid)
      obtain ⟨rows, hrows, hlen, hall⟩ := rows_of_ok
        (fun id => f32_row data (min d0 d1) (id * min d0 d1))
        (min d0 d1) token_ids hgok
      refine ⟨rows, ?_, hlen, hall⟩
      rw [hbase]
      simp only [hfind, htt, hsome, hrows]
    | Q4K =>
      rw [htt] at hdata
      obtain ⟨q, sc, mn, hq, hsc, hmn, hql, hscl, hmnl⟩ := hdata
      have hgok : ∀ id ∈ token_ids, ∃ r,
          dequant_row q sc mn (min d0 d1) (id * min d0 d1) = some r ∧
            r.length = min d0 d1 := by
        intro id hid
        exact dequant_row_ok q sc mn _ _
          (by rw [hql]; exact hrowlen id hid) hscl hmnl
      obtain ⟨rows, hrows, hlen, hall⟩ := rows_of_ok
        (fun id => dequant_row q sc mn (min d0 d1) (id * min d0 d1))
        (min d0 d1) token_ids hgok
      refine ⟨rows, ?_, hlen, hall⟩
      rw [hbase]
      simp only [hfind, htt, hq, hsc, hmn, hrows]
    | Q6K =>
      rw [htt] at hdata
      obtain ⟨q, sc, mn, hq, hsc, hmn, hql, hscl, hmnl⟩ := hdata
      have hgok : ∀ id ∈ token_ids, ∃ r,
          dequant_row q sc mn (min d0 d1) (id * min d0 d1) = some r ∧
            r.length = min d0 d1 := by
        intro id hid
        exact dequant_row_ok q sc mn _ _
          (by rw [hql]; exact hrowlen id hid) hscl hmnl
      obtain ⟨rows, hrows, hlen, hall⟩ := rows_of_ok
        (fun id => dequant_row q sc mn (min d0 d1) (id * min d0 d1))
        (min d0 d1) token_ids hgok
      refine ⟨rows, ?_, hlen, hall⟩
      rw [hbase]
      simp only [hfind, htt, hq, hsc, hmn, hrows]

/-- Witness for C8: a cached 2-by-3 `F32` embedding tensor named
`token_embd.weight` (hidden 2, vocabulary 3): token id 3 is rejected with
the range error, and ids 0..2 succeed with rows of length 2. -/
theorem lookup_embeddings_bounds_witness :
    (∃ id, id ∈ [3] ∧ 3 ≤ id ∧
      lookup_embeddings
        { version := 0, nb_tensors := 0, nb_key_vals := 0, kv := [],
          tensors_metadata :=
            [{ name := strBytes ("token_embd.weight"), n_dimensions := 2,
               dimensions := [2, 3], type_id := 0, offset := 0 }],
          tensors := [(strBytes ("token_embd.weight"),
            { tensor_type := .F32, name := strBytes ("token_embd.weight"),
              dimensions := [2, 3], num_elements := 6,
              f32_data := some [0, 0, 0, 0, 0, 0], quantized_data := none,
              scales := none, mins := none })] } [] [3]
        = .error (.tokenOutOfRange id 3)) := by
  have h := (lookup_embeddings_bounds
    { version := 0, nb_tensors := 0, nb_key_vals := 0, kv := [],
      tensors_metadata :=
        [{ name := strBytes ("token_embd.weight"), n_dimensions := 2,
           dimensions := [2, 3], type_id := 0, offset := 0 }],
      tensors := [(strBytes ("token_embd.weight"),
        { tensor_type := .F32, name := strBytes ("token_embd.weight"),
          dimensions := [2, 3], num_elements := 6,
          f32_data := some [0, 0, 0, 0, 0, 0], quantized_data := none,
          scales := none, mins := none })] } [] [3]
    (strBytes ("token_embd.weight"))
    { tensor_type := .F32, name := strBytes ("token_embd.weight"),
      dimensions := [2, 3], num_elements := 6,
      f32_data := some [0, 0, 0, 0, 0, 0], quantized_data := none,
      scales := none, mins := none }
    (by rfl) (by rfl)
    (by exact ⟨rfl, [0, 0, 0, 0, 0, 0], rfl, rfl⟩)).1
    (by exact ⟨3, by simp, by simp⟩)
  simpa using h

end InferenceEngine
